import Mathlib

/-!
A verification development for a k-armed bandit simulation
(`bandit_environments.py`, `bandit_policies.py`, `bandit_agents.py`,
`bandit_testrunner.py`).

Modelling conventions:
* numpy float vectors are modelled as `List ℚ` where only exact
  arithmetic matters, and as `List ℝ` where the code uses `np.exp`
  (softmax / gradient agent); floats are idealised as exact numbers.
* numpy's IEEE division of an accumulator by the run count is modelled
  by `npDiv`, which returns `none` for a zero divisor (NaN/inf, i.e. an
  undefined value) and `some (x / r)` otherwise.
* random draws (rolls, tie-break picks, exploration picks, reward
  noise) are passed in explicitly as parameters: a theorem quantified
  over them holds for every possible draw of the random source.
-/

/-- Read a vector entry; out-of-range reads give the junk value `d`
(kept total; every theorem that needs it carries an in-range bound). -/
def vget {α : Type} (l : List α) (i : ℕ) (d : α) : α := l.getD i d

theorem vget_set_self {α : Type} (l : List α) (i : ℕ) (h : i < l.length) (v d : α) :
    vget (l.set i v) i d = v := by
  simp [vget, List.getD, List.getElem?_set_self, h]

theorem vget_set_ne {α : Type} (l : List α) (i j : ℕ) (hij : i ≠ j) (v d : α) :
    vget (l.set i v) j d = vget l j d := by
  simp [vget, List.getD, List.getElem?_set, hij]

theorem vget_replicate {α : Type} (n i : ℕ) (h : i < n) (v d : α) :
    vget (List.replicate n v) i d = v := by
  simp [vget, List.getD, List.getElem?_replicate, h]

theorem vget_of_le {α : Type} (l : List α) (i : ℕ) (h : l.length ≤ i) (d : α) :
    vget l i d = d := by
  simp [vget, List.getD, List.getElem?_eq_none h]

theorem vget_replicate_same {α : Type} (n i : ℕ) (v : α) :
    vget (List.replicate n v) i v = v := by
  by_cases h : i < n
  · exact vget_replicate n i h v v
  · exact vget_of_le _ _ (by simpa using Nat.le_of_not_lt h) v

/-- `l.sum` as a sum over positions, used to reason about the gradient
update loop. -/
theorem list_sum_eq_range_sum {α : Type} [AddCommMonoid α] (l : List α) :
    l.sum = ∑ i in Finset.range l.length, vget l i 0 := by
  induction l with
  | nil => simp
  | cons x xs ih =>
      rw [List.sum_cons, ih, List.length_cons, Finset.sum_range_succ']
      simp [vget, add_comm]

section SampleAverageAgent

/-- `SampleAverageBanditAgent` (bandit_agents.py).  `k` is the
environment's arm count (`bandit_env.k`); the two numpy vectors are the
value estimates and the per-action counts (a float array in the source,
hence `List ℚ`). -/
structure SampleAverageBanditAgent where
  k : ℕ
  initial_estimates : ℚ
  action_value_estimates : List ℚ
  action_counts : List ℚ
deriving Repr, DecidableEq

namespace SampleAverageBanditAgent

/-- `BanditAgent.__init__`: `initial_estimates * np.ones(k)` and
`np.zeros(k)`. -/
def init (k : ℕ) (initial : ℚ) : SampleAverageBanditAgent :=
  { k := k
    initial_estimates := initial
    action_value_estimates := List.replicate k initial
    action_counts := List.replicate k 0 }

/-- `reset_action_value_estimates(new_initial_estimates = None)`:
`estimates[:] = new` (or the stored initial value), `counts[:] = 0`. -/
def reset_action_value_estimates (ag : SampleAverageBanditAgent)
    (new_initial_estimates : Option ℚ) : SampleAverageBanditAgent :=
  match new_initial_estimates with
  | some v =>
      { ag with
        action_value_estimates := List.replicate ag.action_value_estimates.length v
        action_counts := List.replicate ag.action_counts.length 0 }
  | none =>
      { ag with
        action_value_estimates :=
          List.replicate ag.action_value_estimates.length ag.initial_estimates
        action_counts := List.replicate ag.action_counts.length 0 }

/-- The incremented counts vector written by `update_action_value_estimates`
before the learning rate is read (`self.action_counts[action] += 1`). -/
def updated_counts (ag : SampleAverageBanditAgent) (action : ℕ) : List ℚ :=
  ag.action_counts.set action (vget ag.action_counts action 0 + 1)

/-- `update_action_value_estimates(action, reward)`: increment the count,
set `learning_rate = 1 / counts[action]` (reading the incremented count),
and move the estimate by `learning_rate * (reward - estimate)`. -/
def update_action_value_estimates (ag : SampleAverageBanditAgent)
    (action : ℕ) (reward : ℚ) : SampleAverageBanditAgent :=
  let counts := ag.updated_counts action
  let learning_rate : ℚ := 1 / vget counts action 0
  { ag with
    action_counts := counts
    action_value_estimates :=
      ag.action_value_estimates.set action
        (vget ag.action_value_estimates action 0 +
          learning_rate * (reward - vget ag.action_value_estimates action 0)) }

end SampleAverageBanditAgent

/-- One externally visible mutation of a sample-average agent: an
`update_action_value_estimates` call or a `reset_action_value_estimates`
call. -/
inductive SAOp where
  | update (action : ℕ) (reward : ℚ)
  | reset (newInit : Option ℚ)
deriving Repr, DecidableEq

def applySAOp (ag : SampleAverageBanditAgent) : SAOp → SampleAverageBanditAgent
  | SAOp.update a r => ag.update_action_value_estimates a r
  | SAOp.reset v => ag.reset_action_value_estimates v

/-- The agent state reached from construction by a sequence of
update/reset calls. -/
def runSAOps (k : ℕ) (initial : ℚ) (ops : List SAOp) : SampleAverageBanditAgent :=
  ops.foldl applySAOp (SampleAverageBanditAgent.init k initial)

theorem sa_update_counts_length (ag : SampleAverageBanditAgent) (a : ℕ) (r : ℚ) :
    (ag.update_action_value_estimates a r).action_counts.length =
      ag.action_counts.length := by
  simp [SampleAverageBanditAgent.update_action_value_estimates,
    SampleAverageBanditAgent.updated_counts]

theorem sa_update_est_length (ag : SampleAverageBanditAgent) (a : ℕ) (r : ℚ) :
    (ag.update_action_value_estimates a r).action_value_estimates.length =
      ag.action_value_estimates.length := by
  simp [SampleAverageBanditAgent.update_action_value_estimates]

/-- Once the estimate for `a` already equals `r`, a further update with
reward `r` leaves it at `r` (whatever the learning rate is). -/
theorem sa_update_fixpoint (ag : SampleAverageBanditAgent) (a : ℕ) (r : ℚ)
    (he : a < ag.action_value_estimates.length)
    (hfix : vget ag.action_value_estimates a 0 = r) :
    vget (ag.update_action_value_estimates a r).action_value_estimates a 0 = r := by
  simp [SampleAverageBanditAgent.update_action_value_estimates,
    vget_set_self _ _ he, hfix]

theorem sa_update_fixpoint_iter (a : ℕ) (r : ℚ) (n : ℕ)
    (ag : SampleAverageBanditAgent)
    (he : a < ag.action_value_estimates.length)
    (hfix : vget ag.action_value_estimates a 0 = r) :
    vget ((fun b => b.update_action_value_estimates a r)^[n]
      ag).action_value_estimates a 0 = r := by
  induction n generalizing ag with
  | zero => simpa using hfix
  | succ m ih =>
      rw [Function.iterate_succ_apply]
      exact ih _ (by rw [sa_update_est_length]; exact he)
        (sa_update_fixpoint ag a r he hfix)

/-- All entries of `action_counts` are (casts of) natural numbers. -/
def countsNat (ag : SampleAverageBanditAgent) : Prop :=
  ∀ i, ∃ n : ℕ, vget ag.action_counts i 0 = (n : ℚ)

theorem countsNat_applySAOp (ag : SampleAverageBanditAgent) (op : SAOp)
    (h : countsNat ag) : countsNat (applySAOp ag op) := by
  cases op with
  | update a r =>
      intro i
      by_cases hi : a = i
      · subst hi
        by_cases hlen : a < ag.action_counts.length
        · obtain ⟨n, hn⟩ := h a
          refine ⟨n + 1, ?_⟩
          simp [applySAOp, SampleAverageBanditAgent.update_action_value_estimates,
            SampleAverageBanditAgent.updated_counts, vget_set_self _ _ hlen, hn]
        · obtain ⟨n, hn⟩ := h a
          refine ⟨n, ?_⟩
          simpa [applySAOp, SampleAverageBanditAgent.update_action_value_estimates,
            SampleAverageBanditAgent.updated_counts, List.set_eq_of_length_le
              (Nat.le_of_not_lt hlen)] using hn
      · obtain ⟨n, hn⟩ := h i
        refine ⟨n, ?_⟩
        simpa [applySAOp, SampleAverageBanditAgent.update_action_value_estimates,
          SampleAverageBanditAgent.updated_counts, vget_set_ne _ _ _ hi] using hn
  | reset v =>
      intro i
      refine ⟨0, ?_⟩
      cases v <;>
        simp [applySAOp, SampleAverageBanditAgent.reset_action_value_estimates,
          vget_replicate_same]

theorem countsNat_foldl (ops : List SAOp) (ag : SampleAverageBanditAgent)
    (h : countsNat ag) : countsNat (ops.foldl applySAOp ag) := by
  induction ops generalizing ag with
  | nil => simpa using h
  | cons op rest ih =>
      rw [List.foldl_cons]
      exact ih _ (countsNat_applySAOp ag op h)

theorem countsNat_runSAOps (k : ℕ) (initial : ℚ) (ops : List SAOp) :
    countsNat (runSAOps k initial ops) := by
  refine countsNat_foldl ops _ ?_
  intro i
  exact ⟨0, by simp [SampleAverageBanditAgent.init, vget_replicate_same]⟩

/-- C2: `SampleAverageBanditAgent.update_action_value_estimates(a, r)`
increments `counts[a]` by 1, then moves `estimates[a]` by
`(1 / counts[a]) * (r - estimates[a])` with the incremented count,
leaves every other entry of both vectors unchanged; a first update to an
action whose estimate starts at 0 sets the estimate to exactly `r`, and
`n ≥ 1` updates with the identical reward `r` leave the estimate at `r`. -/
theorem C2_sample_average_update (ag : SampleAverageBanditAgent) (a : ℕ) (r : ℚ)
    (hc : a < ag.action_counts.length)
    (he : a < ag.action_value_estimates.length) :
    (vget (ag.update_action_value_estimates a r).action_counts a 0 =
        vget ag.action_counts a 0 + 1) ∧
    (vget (ag.update_action_value_estimates a r).action_value_estimates a 0 =
        vget ag.action_value_estimates a 0 +
          1 / (vget ag.action_counts a 0 + 1) *
            (r - vget ag.action_value_estimates a 0)) ∧
    (∀ i, i ≠ a →
      vget (ag.update_action_value_estimates a r).action_counts i 0 =
          vget ag.action_counts i 0 ∧
      vget (ag.update_action_value_estimates a r).action_value_estimates i 0 =
          vget ag.action_value_estimates i 0) ∧
    (vget ag.action_counts a 0 = 0 → vget ag.action_value_estimates a 0 = 0 →
      vget (ag.update_action_value_estimates a r).action_value_estimates a 0 = r) ∧
    (∀ n, 1 ≤ n → vget ag.action_counts a 0 = 0 →
      vget ag.action_value_estimates a 0 = 0 →
      vget ((fun b => b.update_action_value_estimates a r)^[n]
        ag).action_value_estimates a 0 = r) := by
  have hcounts :
      vget (ag.update_action_value_estimates a r).action_counts a 0 =
        vget ag.action_counts a 0 + 1 := by
    simp [SampleAverageBanditAgent.update_action_value_estimates,
      SampleAverageBanditAgent.updated_counts, vget_set_self _ _ hc]
  have hest :
      vget (ag.update_action_value_estimates a r).action_value_estimates a 0 =
        vget ag.action_value_estimates a 0 +
          1 / (vget ag.action_counts a 0 + 1) *
            (r - vget ag.action_value_estimates a 0) := by
    simp [SampleAverageBanditAgent.update_action_value_estimates,
      SampleAverageBanditAgent.updated_counts, vget_set_self _ _ hc,
      vget_set_self _ _ he]
  have hfirst : vget ag.action_counts a 0 = 0 →
      vget ag.action_value_estimates a 0 = 0 →
      vget (ag.update_action_value_estimates a r).action_value_estimates a 0 = r := by
    intro h0 e0
    rw [hest, h0, e0]
    ring
  refine ⟨hcounts, hest, ?_, hfirst, ?_⟩
  · intro i hi
    constructor
    · simp [SampleAverageBanditAgent.update_action_value_estimates,
        SampleAverageBanditAgent.updated_counts, vget_set_ne _ _ _ (Ne.symm hi)]
    · simp [SampleAverageBanditAgent.update_action_value_estimates,
        vget_set_ne _ _ _ (Ne.symm hi)]
  · intro n hn h0 e0
    obtain ⟨m, rfl⟩ := Nat.exists_eq_add_of_le hn
    rw [add_comm, Function.iterate_add_apply, Function.iterate_one]
    exact sa_update_fixpoint_iter a r m _
      (by rw [sa_update_est_length]; exact he) (hfirst h0 e0)

theorem C2_witness :
    0 < (SampleAverageBanditAgent.init 2 0).action_counts.length ∧
    0 < (SampleAverageBanditAgent.init 2 0).action_value_estimates.length ∧
    vget ((SampleAverageBanditAgent.init 2 0).update_action_value_estimates
      0 5).action_value_estimates 0 0 = 5 := by
  refine ⟨by decide, by decide, ?_⟩
  exact (C2_sample_average_update (SampleAverageBanditAgent.init 2 0) 0 5
    (by decide) (by decide)).2.2.2.1 (by decide) (by decide)

/-- C10: in `update_action_value_estimates` the count is incremented
before the learning-rate divisor is read, so from every state reachable
by updates and resets the divisor is a positive integer (`n + 1` for a
natural `n`) — the division-by-zero case cannot occur — and every entry
of `action_counts` stays non-negative. -/
theorem C10_counts_nonneg_divisor_positive (k : ℕ) (initial : ℚ)
    (ops : List SAOp) :
    (∀ i, 0 ≤ vget (runSAOps k initial ops).action_counts i 0) ∧
    (∀ a, a < (runSAOps k initial ops).action_counts.length →
      ∃ n : ℕ,
        vget ((runSAOps k initial ops).updated_counts a) a 0 = (n : ℚ) + 1 ∧
        0 < vget ((runSAOps k initial ops).updated_counts a) a 0) := by
  have hnat := countsNat_runSAOps k initial ops
  constructor
  · intro i
    obtain ⟨n, hn⟩ := hnat i
    rw [hn]
    exact_mod_cast Nat.zero_le n
  · intro a ha
    obtain ⟨n, hn⟩ := hnat a
    refine ⟨n, ?_, ?_⟩
    · simp [SampleAverageBanditAgent.updated_counts, vget_set_self _ _ ha, hn]
    · simp only [SampleAverageBanditAgent.updated_counts,
        vget_set_self _ _ ha, hn]
      positivity

theorem C10_witness :
    0 < (runSAOps 2 0 [SAOp.update 0 3, SAOp.reset none,
      SAOp.update 1 2]).action_counts.length ∧
    ∃ n : ℕ,
      vget ((runSAOps 2 0 [SAOp.update 0 3, SAOp.reset none,
        SAOp.update 1 2]).updated_counts 0) 0 0 = (n : ℚ) + 1 ∧
      0 < vget ((runSAOps 2 0 [SAOp.update 0 3, SAOp.reset none,
        SAOp.update 1 2]).updated_counts 0) 0 0 := by
  refine ⟨by decide, ?_⟩
  exact (C10_counts_nonneg_divisor_positive 2 0
    [SAOp.update 0 3, SAOp.reset none, SAOp.update 1 2]).2 0 (by decide)

end SampleAverageAgent

section Environment

/-- Python/numpy integer indexing into a 1-D array: an index `i` is
valid iff `-len ≤ i < len`, and a negative index resolves to the element
`len + i` counted from the end; anything else raises `IndexError`
(modelled as `none`). -/
def npIndex {α : Type} (l : List α) (i : ℤ) (d : α) : Option α :=
  if 0 ≤ i then
    if i < (l.length : ℤ) then some (vget l i.toNat d) else none
  else
    if -(l.length : ℤ) ≤ i then some (vget l ((l.length : ℤ) + i).toNat d)
    else none

/-- `BanditEnvironment` (bandit_environments.py).  The constructor draws
`true_action_values` from a normal distribution; here the drawn vector
and the resulting `optimal_action` are supplied directly, standing for
one realisation of that randomness. -/
structure BanditEnvironment where
  k : ℕ
  mu : ℚ
  sigma : ℚ
  true_action_values : List ℚ
  optimal_action : ℕ
deriving Repr, DecidableEq

/-- `take_action_emit_reward(action)`: reads
`true_action_values[action]` (numpy indexing), returns the reward
`np.random.normal(q)` — modelled as `q + noise` for the supplied
standard-normal draw `noise` — together with `action == optimal_action`. -/
def BanditEnvironment.take_action_emit_reward (env : BanditEnvironment)
    (action : ℤ) (noise : ℚ) : Option (ℚ × Bool) :=
  (npIndex env.true_action_values action 0).map
    (fun q => (q + noise, decide (action = (env.optimal_action : ℤ))))

/-- C4 fails as stated: on a 2-armed environment the out-of-range action
`-1` is not rejected — it is silently resolved to the last arm
(`true_action_values[-1] = 4`) by Python negative indexing. -/
theorem C4_counterexample :
    BanditEnvironment.take_action_emit_reward
      ⟨2, 0, 1, [3, 4], 1⟩ (-1) 0 = some (4, false) := by
  norm_num [BanditEnvironment.take_action_emit_reward, npIndex, vget]

/-- C4 amended: `take_action_emit_reward` signals an index error exactly
for `action < -k` or `action ≥ k`; a negative action with `-k ≤ action < 0`
is silently accepted and wraps to the arm `k + action` counted from the
end. -/
theorem C4_amended (env : BanditEnvironment) (action : ℤ) (noise : ℚ)
    (hlen : env.true_action_values.length = env.k) :
    (env.take_action_emit_reward action noise = none ↔
      action < -(env.k : ℤ) ∨ (env.k : ℤ) ≤ action) ∧
    (-(env.k : ℤ) ≤ action → action < 0 →
      env.take_action_emit_reward action noise =
        some (vget env.true_action_values ((env.k : ℤ) + action).toNat 0 + noise,
          decide (action = (env.optimal_action : ℤ)))) := by
  have hk : (env.true_action_values.length : ℤ) = (env.k : ℤ) := by
    exact_mod_cast congrArg Nat.cast hlen
  constructor
  · rw [BanditEnvironment.take_action_emit_reward, npIndex]
    split_ifs with h1 h2 h3 <;> simp <;> omega
  · intro hge hneg
    rw [BanditEnvironment.take_action_emit_reward, npIndex,
      if_neg (by omega), if_pos (by omega), hk, Option.map_some']

theorem C4_witness :
    (BanditEnvironment.true_action_values ⟨2, 0, 1, [3, 4], 1⟩).length =
      BanditEnvironment.k ⟨2, 0, 1, [3, 4], 1⟩ ∧
    (BanditEnvironment.take_action_emit_reward ⟨2, 0, 1, [3, 4], 1⟩ (-1) 0 =
        none ↔
      (-1 : ℤ) < -((2 : ℕ) : ℤ) ∨ ((2 : ℕ) : ℤ) ≤ (-1 : ℤ)) := by
  refine ⟨by decide, ?_⟩
  exact (C4_amended ⟨2, 0, 1, [3, 4], 1⟩ (-1) 0 (by decide)).1

end Environment

section EpsilonGreedyPolicy

/-- `action_value_estimates.max()` (numpy max of a nonempty vector; the
`[]` case is junk, never used). -/
def maxval (l : List ℚ) : ℚ :=
  match l with
  | [] => 0
  | x :: xs => xs.foldl max x

theorem foldl_max_mem (x : ℚ) (xs : List ℚ) : xs.foldl max x ∈ x :: xs := by
  induction xs generalizing x with
  | nil => simp
  | cons y ys ih =>
      rw [List.foldl_cons]
      have h := ih (max x y)
      rcases List.mem_cons.mp h with h2 | h2
      · rw [h2]
        rcases max_choice x y with h' | h' <;> simp [h']
      · simp [List.mem_cons, h2]

theorem maxval_mem (l : List ℚ) (h : l ≠ []) : maxval l ∈ l := by
  match l with
  | x :: xs => exact foldl_max_mem x xs

/-- `np.where(estimates == estimates.max())[0]`: the indices achieving
the maximum, in increasing order. -/
def maximizers (l : List ℚ) : List ℕ :=
  (List.range l.length).filter (fun i => vget l i 0 = maxval l)

/-- `BanditPolicy.argmax_with_random_tiebreaker`: `np.random.choice` over
the maximizer indices; the random pick is modelled by the draw `tb`
selecting position `tb % count` among the tied maximizers. -/
def BanditPolicy.argmax_with_random_tiebreaker (tb : ℕ) (l : List ℚ) : ℕ :=
  vget (maximizers l) (tb % (maximizers l).length) 0

/-- `BanditEpsilonGreedyPolicy.choose_action`: draw
`roll = random.uniform(0, 1)`; if `roll <= epsilon` return
`random.choice(range(len(estimates)))` — the uniform draw, modelled by
`u % len` — else the tie-broken argmax. -/
def BanditEpsilonGreedyPolicy.choose_action (epsilon roll : ℚ) (u tb : ℕ)
    (action_value_estimates : List ℚ) : ℕ :=
  if roll ≤ epsilon then u % action_value_estimates.length
  else BanditPolicy.argmax_with_random_tiebreaker tb action_value_estimates

theorem maximizers_ne_nil (l : List ℚ) (h : l ≠ []) : maximizers l ≠ [] := by
  obtain ⟨i, hi, hget⟩ := List.mem_iff_getElem.mp (maxval_mem l h)
  have himem : i ∈ maximizers l := by
    rw [maximizers, List.mem_filter]
    refine ⟨List.mem_range.mpr hi, ?_⟩
    simpa [vget, List.getD, List.getElem?_eq_getElem hi] using hget
  exact List.ne_nil_of_mem himem

/-- The tie-broken argmax really attains the maximum, for every draw. -/
theorem argmax_attains (tb : ℕ) (l : List ℚ) (h : l ≠ []) :
    vget l (BanditPolicy.argmax_with_random_tiebreaker tb l) 0 = maxval l := by
  have hne := maximizers_ne_nil l h
  have hlt : tb % (maximizers l).length < (maximizers l).length :=
    Nat.mod_lt _ (List.length_pos.mpr hne)
  have hmem : vget (maximizers l) (tb % (maximizers l).length) 0 ∈ maximizers l := by
    rw [vget, List.getD_eq_getElem _ _ hlt]
    exact List.getElem_mem hlt
  rw [maximizers, List.mem_filter] at hmem
  have := hmem.2
  rwa [decide_eq_true_eq] at this

/-- C5 fails as stated: with `epsilon = 0` the draw `roll = 0` — a value
`random.uniform(0, 1)` can return — satisfies `roll <= epsilon` and takes
the exploratory uniform branch (returning the exploration draw 0), not
the tie-broken argmax (which is 1 on `[0, 5]`). -/
theorem C5_counterexample :
    BanditEpsilonGreedyPolicy.choose_action 0 0 0 0 [0, 5] = 0 ∧
    BanditPolicy.argmax_with_random_tiebreaker 0 [0, 5] = 1 := by
  constructor
  · norm_num [BanditEpsilonGreedyPolicy.choose_action]
  · norm_num [BanditPolicy.argmax_with_random_tiebreaker, maximizers,
      maxval, vget, List.filter, max_def]

/-- C5 amended: with `epsilon = 0` every draw `roll` in `(0, 1]` yields
the tie-broken argmax (whose estimate attains the maximum); the single
draw `roll = 0` instead takes the exploratory branch.  With `epsilon = 1`
every draw `roll` in `[0, 1]` yields the uniform exploration draw,
regardless of the estimates. -/
theorem C5_amended (l : List ℚ) (roll : ℚ) (u tb : ℕ) (h : l ≠ []) :
    (0 < roll → roll ≤ 1 →
      BanditEpsilonGreedyPolicy.choose_action 0 roll u tb l =
        BanditPolicy.argmax_with_random_tiebreaker tb l ∧
      vget l (BanditPolicy.argmax_with_random_tiebreaker tb l) 0 = maxval l) ∧
    (0 ≤ roll → roll ≤ 1 → u < l.length →
      BanditEpsilonGreedyPolicy.choose_action 1 roll u tb l = u) := by
  constructor
  · intro h0 _
    rw [BanditEpsilonGreedyPolicy.choose_action, if_neg (not_le.mpr h0)]
    exact ⟨rfl, argmax_attains tb l h⟩
  · intro _ h1 hu
    rw [BanditEpsilonGreedyPolicy.choose_action, if_pos h1]
    exact Nat.mod_eq_of_lt hu

theorem C5_witness :
    (([0, 5] : List ℚ) ≠ []) ∧ 0 < (1/2 : ℚ) ∧ (1/2 : ℚ) ≤ 1 ∧
    1 < ([0, 5] : List ℚ).length ∧
    (BanditEpsilonGreedyPolicy.choose_action 0 (1/2) 1 0 [0, 5] =
        BanditPolicy.argmax_with_random_tiebreaker 0 [0, 5] ∧
      vget [0, 5] (BanditPolicy.argmax_with_random_tiebreaker 0 [0, 5]) 0 =
        maxval [0, 5]) ∧
    BanditEpsilonGreedyPolicy.choose_action 1 (1/2) 1 0 [0, 5] = 1 := by
  refine ⟨by simp, by norm_num, by norm_num, by simp, ?_, ?_⟩
  · exact (C5_amended [0, 5] (1/2) 1 0 (by simp)).1 (by norm_num) (by norm_num)
  · exact (C5_amended [0, 5] (1/2) 1 0 (by simp)).2 (by norm_num) (by norm_num)
      (by simp)

end EpsilonGreedyPolicy

section SoftmaxPolicy

/-- `BanditSoftmaxPolicy.softmax`:
`np.exp(x) / np.sum(np.exp(x), axis = 0)` (floats idealised as reals). -/
noncomputable def BanditSoftmaxPolicy.softmax (x : List ℝ) : List ℝ :=
  x.map (fun xi => Real.exp xi / (x.map Real.exp).sum)

theorem expsum_pos (x : List ℝ) (h : x ≠ []) : 0 < (x.map Real.exp).sum := by
  refine List.sum_pos _ ?_ ?_
  · intro a ha
    obtain ⟨xi, _, rfl⟩ := List.mem_map.mp ha
    exact Real.exp_pos xi
  · simpa using h

theorem softmax_length (x : List ℝ) :
    (BanditSoftmaxPolicy.softmax x).length = x.length := by
  simp [BanditSoftmaxPolicy.softmax]

theorem softmax_vget (x : List ℝ) (i : ℕ) (hi : i < x.length) :
    vget (BanditSoftmaxPolicy.softmax x) i 0 =
      Real.exp (vget x i 0) / (x.map Real.exp).sum := by
  rw [BanditSoftmaxPolicy.softmax, vget,
    List.getD_eq_getElem _ _ (by simpa using hi), List.getElem_map, vget,
    List.getD_eq_getElem _ _ hi]

theorem softmax_sum_eq_one (x : List ℝ) (h : x ≠ []) :
    (BanditSoftmaxPolicy.softmax x).sum = 1 := by
  have hS := expsum_pos x h
  rw [BanditSoftmaxPolicy.softmax]
  have : (x.map fun xi => Real.exp xi / (x.map Real.exp).sum) =
      x.map fun xi => Real.exp xi * ((x.map Real.exp).sum)⁻¹ := by
    simp [div_eq_mul_inv]
  rw [this, List.sum_map_mul_right, mul_inv_cancel₀ (ne_of_gt hS)]

/-- C6: every softmax entry is `exp(x[i])` over the total `exp` mass,
the entries are non-negative and sum to exactly 1 (floats idealised as
reals), and a strictly larger estimate gets a strictly larger
probability. -/
theorem C6_softmax_distribution (x : List ℝ) (h : x ≠ []) :
    (∀ i, i < x.length → vget (BanditSoftmaxPolicy.softmax x) i 0 =
      Real.exp (vget x i 0) / (x.map Real.exp).sum) ∧
    (BanditSoftmaxPolicy.softmax x).sum = 1 ∧
    (∀ p ∈ BanditSoftmaxPolicy.softmax x, 0 ≤ p) ∧
    (∀ i j, i < x.length → j < x.length → vget x j 0 < vget x i 0 →
      vget (BanditSoftmaxPolicy.softmax x) j 0 <
        vget (BanditSoftmaxPolicy.softmax x) i 0) := by
  have hS := expsum_pos x h
  refine ⟨fun i hi => softmax_vget x i hi, softmax_sum_eq_one x h, ?_, ?_⟩
  · intro p hp
    obtain ⟨xi, _, rfl⟩ := List.mem_map.mp hp
    exact div_nonneg (Real.exp_nonneg xi) (le_of_lt hS)
  · intro i j hi hj hij
    rw [softmax_vget x i hi, softmax_vget x j hj]
    exact div_lt_div_of_pos_right (Real.exp_lt_exp.mpr hij) hS

theorem C6_witness :
    (([1, 0] : List ℝ) ≠ []) ∧
    (BanditSoftmaxPolicy.softmax [1, 0]).sum = 1 := by
  refine ⟨by simp, ?_⟩
  exact (C6_softmax_distribution [1, 0] (by simp)).2.1

end SoftmaxPolicy

section GradientAgent

/-- `GradientBanditAgent` (bandit_agents.py): preference values instead
of raw value estimates, a built-in softmax policy, no counts. -/
structure GradientBanditAgent where
  k : ℕ
  action_value_estimates : List ℝ
  learning_rate : ℝ
  average_reward : ℝ
  initial_estimates : ℝ

/-- `GradientBanditAgent.__init__(bandit_env, initial_estimates = 0,
learning_rate = 0.1)`: preferences start at `initial_estimates * np.ones(k)`
and `average_reward` starts at 0. -/
def GradientBanditAgent.init (k : ℕ) (initial lr : ℝ) : GradientBanditAgent :=
  { k := k
    action_value_estimates := List.replicate k initial
    learning_rate := lr
    average_reward := 0
    initial_estimates := initial }

/-- `GradientBanditAgent.reset_action_value_estimates`: refills the
preference vector only (no counts exist; `average_reward` is untouched). -/
def GradientBanditAgent.reset_action_value_estimates (ag : GradientBanditAgent)
    (new_initial_estimates : Option ℝ) : GradientBanditAgent :=
  match new_initial_estimates with
  | some v =>
      { ag with action_value_estimates :=
          List.replicate ag.action_value_estimates.length v }
  | none =>
      { ag with action_value_estimates :=
          List.replicate ag.action_value_estimates.length ag.initial_estimates }

/-- `GradientBanditAgent.update_action_value_estimates(action, reward)`
(equations 2.12): compute the softmax of the current preferences, raise
the chosen action's preference by `lr * diff * (1 - pi[action])` and
lower every other one by `lr * diff * pi[a]`, where
`diff = reward - average_reward`.  The method never writes
`average_reward`. -/
noncomputable def GradientBanditAgent.update_action_value_estimates
    (ag : GradientBanditAgent) (action : ℕ) (reward : ℝ) : GradientBanditAgent :=
  let current_policy := BanditSoftmaxPolicy.softmax ag.action_value_estimates
  let diff := reward - ag.average_reward
  let est1 := ag.action_value_estimates.set action
    (vget ag.action_value_estimates action 0 +
      ag.learning_rate * diff * (1 - vget current_policy action 0))
  let est2 := (List.range ag.k).foldl
    (fun e a => if a = action then e
      else e.set a (vget e a 0 - ag.learning_rate * diff * vget current_policy a 0))
    est1
  { ag with action_value_estimates := est2 }

theorem grad_update_average_reward (ag : GradientBanditAgent) (action : ℕ)
    (reward : ℝ) :
    (ag.update_action_value_estimates action reward).average_reward =
      ag.average_reward := rfl

/-- C3 fails on the code: `update_action_value_estimates` never writes
`average_reward`, so after any interaction history it still holds its
construction-time value 0 instead of the running average of rewards. -/
theorem C3_average_reward_never_updated (k : ℕ) (initial lr : ℝ)
    (history : List (ℕ × ℝ)) :
    (history.foldl (fun ag p => ag.update_action_value_estimates p.1 p.2)
      (GradientBanditAgent.init k initial lr)).average_reward = 0 := by
  suffices hgen : ∀ (ag : GradientBanditAgent),
      (history.foldl (fun ag p => ag.update_action_value_estimates p.1 p.2)
        ag).average_reward = ag.average_reward by
    rw [hgen]
    rfl
  intro ag
  induction history generalizing ag with
  | nil => rfl
  | cons p rest ih =>
      rw [List.foldl_cons, ih, grad_update_average_reward]

/-- Length is invariant under the gradient agent's per-action loop. -/
theorem gradLoop_length (c : ℝ) (pi : List ℝ) (action n : ℕ) (e : List ℝ) :
    ((List.range n).foldl (fun e a => if a = action then e
      else e.set a (vget e a 0 - c * vget pi a 0)) e).length = e.length := by
  induction n with
  | zero => rfl
  | succ m ih =>
      rw [List.range_succ, List.foldl_append, List.foldl_cons, List.foldl_nil]
      by_cases hm : m = action
      · rw [if_pos hm]
        exact ih
      · rw [if_neg hm, List.length_set]
        exact ih

/-- Pointwise effect of the gradient agent's per-action loop: every
index below `n` other than `action` loses `c * pi[a]`, everything else
is untouched. -/
theorem gradLoop_vget (c : ℝ) (pi : List ℝ) (action n : ℕ) (e : List ℝ)
    (hn : n ≤ e.length) (j : ℕ) :
    vget ((List.range n).foldl (fun e a => if a = action then e
      else e.set a (vget e a 0 - c * vget pi a 0)) e) j 0 =
    if j < n ∧ j ≠ action then vget e j 0 - c * vget pi j 0
    else vget e j 0 := by
  induction n with
  | zero => simp
  | succ m ih =>
      have hm' : m ≤ e.length := le_trans (Nat.le_succ m) hn
      have hE := gradLoop_length c pi action m e
      rw [List.range_succ, List.foldl_append, List.foldl_cons, List.foldl_nil]
      by_cases hm : m = action
      · simp only [if_pos hm]
        rw [ih hm']
        refine if_congr ⟨fun hc => ⟨Nat.lt_succ_of_lt hc.1, hc.2⟩,
          fun hc => ⟨?_, hc.2⟩⟩ rfl rfl
        have : j ≠ m := by rw [hm]; exact hc.2
        omega
      · simp only [if_neg hm]
        by_cases hj : j = m
        · subst hj
          rw [vget_set_self _ _ (by omega), ih hm']
          simp only [lt_irrefl, false_and, if_false]
          rw [if_pos ⟨Nat.lt_succ_self j, hm⟩]
        · rw [vget_set_ne _ _ _ (fun hmj => hj (hmj.symm)), ih hm']
          refine if_congr ⟨fun hc => ⟨Nat.lt_succ_of_lt hc.1, hc.2⟩,
            fun hc => ⟨?_, hc.2⟩⟩ rfl rfl
          omega

/-- C9: one gradient update moves the chosen preference up by
`lr * diff * (1 - pi[action])` and every other preference down by
`lr * diff * pi[a]`; since the softmax probabilities sum to 1 these
changes cancel and the total preference mass is unchanged. -/
theorem C9_gradient_update_preserves_sum (ag : GradientBanditAgent)
    (action : ℕ) (reward : ℝ)
    (hlen : ag.action_value_estimates.length = ag.k)
    (ha : action < ag.k) :
    (ag.update_action_value_estimates action reward).action_value_estimates.sum =
      ag.action_value_estimates.sum := by
  have hk0 : 0 < ag.k := by omega
  have hne : ag.action_value_estimates ≠ [] := by
    intro hnil
    rw [hnil] at hlen
    simp at hlen
    omega
  have hpisum : (BanditSoftmaxPolicy.softmax ag.action_value_estimates).sum = 1 :=
    softmax_sum_eq_one _ hne
  have hpilen : (BanditSoftmaxPolicy.softmax ag.action_value_estimates).length =
      ag.k := by rw [softmax_length, hlen]
  set est := ag.action_value_estimates with hest
  set pi := BanditSoftmaxPolicy.softmax est with hpi
  set c := ag.learning_rate * (reward - ag.average_reward) with hc
  set est1 := est.set action
    (vget est action 0 + c * (1 - vget pi action 0)) with hest1
  have hest1len : est1.length = ag.k := by
    rw [hest1, List.length_set, hlen]
  show ((List.range ag.k).foldl (fun e a => if a = action then e
      else e.set a (vget e a 0 - c * vget pi a 0)) est1).sum = est.sum
  rw [list_sum_eq_range_sum, gradLoop_length c pi action ag.k est1, hest1len,
    list_sum_eq_range_sum est, hlen]
  have hcell : ∀ i ∈ Finset.range ag.k,
      vget ((List.range ag.k).foldl (fun e a => if a = action then e
        else e.set a (vget e a 0 - c * vget pi a 0)) est1) i 0 =
      vget est i 0 + (if i = action then c * (1 - vget pi action 0) else 0) -
        (if i = action then 0 else c * vget pi i 0) := by
    intro i hi
    rw [Finset.mem_range] at hi
    rw [gradLoop_vget c pi action ag.k est1 (le_of_eq hest1len.symm) i]
    by_cases hia : i = action
    · subst hia
      rw [if_neg (by simp), if_pos rfl, if_pos rfl, hest1,
        vget_set_self _ _ (by omega)]
      ring
    · rw [if_pos ⟨hi, hia⟩, hest1, vget_set_ne _ _ _ (fun h2 => hia h2.symm),
        if_neg hia, if_neg hia]
      ring
  rw [Finset.sum_congr rfl hcell]
  rw [Finset.sum_sub_distrib, Finset.sum_add_distrib, Finset.sum_ite_eq'
    (Finset.range ag.k) action (fun _ => c * (1 - vget pi action 0))]
  have hsplit : ∀ i ∈ Finset.range ag.k,
      (if i = action then 0 else c * vget pi i 0) =
        c * vget pi i 0 - (if i = action then c * vget pi i 0 else 0) := by
    intro i _
    by_cases hia : i = action <;> simp [hia]
  rw [Finset.sum_congr rfl hsplit, Finset.sum_sub_distrib,
    Finset.sum_ite_eq' (Finset.range ag.k) action (fun i => c * vget pi i 0),
    if_pos (Finset.mem_range.mpr ha), if_pos (Finset.mem_range.mpr ha)]
  have hpirange : ∑ i in Finset.range ag.k, c * vget pi i 0 = c := by
    rw [← Finset.mul_sum, ← hpilen, ← list_sum_eq_range_sum, hpisum, mul_one]
  rw [hpirange]
  ring

theorem C9_witness :
    (GradientBanditAgent.init 2 0 (1/10)).action_value_estimates.length =
      (GradientBanditAgent.init 2 0 (1/10)).k ∧
    0 < (GradientBanditAgent.init 2 0 (1/10)).k ∧
    ((GradientBanditAgent.init 2 0
        (1/10)).update_action_value_estimates 0 1).action_value_estimates.sum =
      (GradientBanditAgent.init 2 0 (1/10)).action_value_estimates.sum := by
  refine ⟨by simp [GradientBanditAgent.init], by norm_num [GradientBanditAgent.init], ?_⟩
  exact C9_gradient_update_preserves_sum (GradientBanditAgent.init 2 0 (1/10)) 0 1
    (by simp [GradientBanditAgent.init]) (by norm_num [GradientBanditAgent.init])

end GradientAgent

section ResetRoundTrip

/-- C7: for both agent variants, `resetEstimates()` then
`resetEstimates(X)` leaves the estimates vector all-`X`; no reset ever
changes the stored `initial_estimates`, so a later plain
`resetEstimates()` restores the all-`initial_estimates` vector. -/
theorem C7_reset_round_trip (ag : SampleAverageBanditAgent)
    (ag2 : GradientBanditAgent) (X : ℚ) (Y : ℝ) :
    ((ag.reset_action_value_estimates none).reset_action_value_estimates
        (some X)).action_value_estimates =
      List.replicate ag.action_value_estimates.length X ∧
    (∀ o, (ag.reset_action_value_estimates o).initial_estimates =
      ag.initial_estimates) ∧
    (((ag.reset_action_value_estimates none).reset_action_value_estimates
        (some X)).reset_action_value_estimates none).action_value_estimates =
      List.replicate ag.action_value_estimates.length ag.initial_estimates ∧
    ((ag2.reset_action_value_estimates none).reset_action_value_estimates
        (some Y)).action_value_estimates =
      List.replicate ag2.action_value_estimates.length Y ∧
    (∀ o, (ag2.reset_action_value_estimates o).initial_estimates =
      ag2.initial_estimates) ∧
    (((ag2.reset_action_value_estimates none).reset_action_value_estimates
        (some Y)).reset_action_value_estimates none).action_value_estimates =
      List.replicate ag2.action_value_estimates.length ag2.initial_estimates := by
  refine ⟨?_, ?_, ?_, ?_, ?_, ?_⟩
  · simp [SampleAverageBanditAgent.reset_action_value_estimates]
  · intro o
    cases o <;> rfl
  · simp [SampleAverageBanditAgent.reset_action_value_estimates]
  · simp [GradientBanditAgent.reset_action_value_estimates]
  · intro o
    cases o <;> rfl
  · simp [GradientBanditAgent.reset_action_value_estimates]

end ResetRoundTrip

section TestRunner

/-- The collaborators a `BanditTestRunner` is built from
(bandit_testrunner.py): the shared environment, the agent list (as the
fixed count `numAgents` of agents addressed by their list position) and
the ambient random stream, all folded into one world state `σ`.
`full_reset` is the runner's `full_reset` (reset the environment's true
values, then reset every agent's estimates); `choose_action a`,
`take_action_emit_reward action` and `update_agent a action reward` are
agent `a`'s policy call, the environment step and the agent update, each
threading (and possibly advancing) the world state. -/
structure RunnerModel (σ : Type) where
  numAgents : ℕ
  full_reset : σ → σ
  choose_action : ℕ → σ → σ × ℕ
  take_action_emit_reward : ℕ → σ → σ × ℚ × Bool
  update_agent : ℕ → ℕ → ℚ → σ → σ

/-- The two accumulator matrices `rewards_history` and
`optimal_action_history`, as functions of (timestep, agent position). -/
structure Hist where
  rew : ℕ → ℕ → ℚ
  opt : ℕ → ℕ → ℚ

/-- `m[t, a] += v` on an accumulator matrix. -/
def bump (f : ℕ → ℕ → ℚ) (t a : ℕ) (v : ℚ) : ℕ → ℕ → ℚ :=
  fun t2 a2 => if t2 = t ∧ a2 = a then f t2 a2 + v else f t2 a2

variable {σ : Type}

/-- The inner-loop body for one agent, without the accumulation:
`action = agent.choose_action(); reward, optimal =
bandit_env.take_action_emit_reward(action);
agent.update_action_value_estimates(action, reward)`. -/
def agentStep (M : RunnerModel σ) (a : ℕ) (s : σ) : σ × ℚ × Bool :=
  let s1 := M.choose_action a s
  let s2 := M.take_action_emit_reward s1.2 s1.1
  (M.update_agent a s1.2 s2.2.1 s2.1, s2.2.1, s2.2.2)

def agentNext (M : RunnerModel σ) (a : ℕ) (s : σ) : σ := (agentStep M a s).1

def agentRew (M : RunnerModel σ) (a : ℕ) (s : σ) : ℚ := (agentStep M a s).2.1

def agentOptFlag (M : RunnerModel σ) (a : ℕ) (s : σ) : Bool := (agentStep M a s).2.2

/-- One agent's turn inside timestep `t`, including the accumulation
into `rewards_history[timestep, agent_id]` and (when the action was
optimal) `optimal_action_history[timestep, agent_id]`. -/
def agentBody (M : RunnerModel σ) (t a : ℕ) (sh : σ × Hist) : σ × Hist :=
  (agentNext M a sh.1,
   { rew := bump sh.2.rew t a (agentRew M a sh.1)
     opt := bump sh.2.opt t a (if agentOptFlag M a sh.1 then 1 else 0) })

/-- `for agent_id, agent in enumerate(self.agents): ...` — agents in the
fixed list order supplied at construction. -/
def timeBody (M : RunnerModel σ) (t : ℕ) (sh : σ × Hist) : σ × Hist :=
  (List.range M.numAgents).foldl (fun sh a => agentBody M t a sh) sh

/-- One trial: `self.full_reset()` then
`for timestep in range(0, timesteps): ...`. -/
def runBody (M : RunnerModel σ) (T : ℕ) (sh : σ × Hist) : σ × Hist :=
  (List.range T).foldl (fun sh t => timeBody M t sh) (M.full_reset sh.1, sh.2)

/-- IEEE division of an accumulator cell by the run count, as numpy
performs it at the end of `perform_runs`: division by zero produces a
non-finite value (`0/0` is NaN), modelled as `none`. -/
def npDiv (x : ℚ) (r : ℕ) : Option ℚ := if r = 0 then none else some (x / r)

/-- `BanditTestRunner.perform_runs(timesteps, runs)`: zero-initialise
both `[timesteps][numAgents]` accumulators, run `runs` trials (each
starting with `full_reset`), and return both accumulators divided
element-wise by `runs`. -/
def perform_runs (M : RunnerModel σ) (T R : ℕ) (s0 : σ) :
    List (List (Option ℚ)) × List (List (Option ℚ)) :=
  let fin := (List.range R).foldl (fun sh _ => runBody M T sh)
    (s0, { rew := fun _ _ => 0, opt := fun _ _ => 0 })
  ((List.range T).map fun t => (List.range M.numAgents).map fun a =>
      npDiv (fin.2.rew t a) R,
   (List.range T).map fun t => (List.range M.numAgents).map fun a =>
      npDiv (fin.2.opt t a) R)

/-- Read one cell of an output matrix (out-of-range reads give `none`). -/
def cell (m : List (List (Option ℚ))) (t a : ℕ) : Option ℚ :=
  vget (vget m t []) a none

/-- World state inside a timestep after the first `a` agents have
taken their turns. -/
def stepsUpTo (M : RunnerModel σ) (s : σ) (a : ℕ) : σ :=
  (List.range a).foldl (fun s i => agentNext M i s) s

/-- World state advanced by one full timestep (all agents in order). -/
def tickS (M : RunnerModel σ) (s : σ) : σ := stepsUpTo M s M.numAgents

/-- World state advanced by `n` full timesteps. -/
def tickIter (M : RunnerModel σ) (s : σ) (n : ℕ) : σ :=
  (List.range n).foldl (fun s _ => tickS M s) s

/-- World state inside a trial entered at `s`: `full_reset`, then `t`
full timesteps. -/
def trialStateAt (M : RunnerModel σ) (s : σ) (t : ℕ) : σ :=
  tickIter M (M.full_reset s) t

/-- World state at the end of one `T`-timestep trial entered at `s`. -/
def trialEnd (M : RunnerModel σ) (T : ℕ) (s : σ) : σ := trialStateAt M s T

/-- World state at the start of trial `r` (before its `full_reset`). -/
def runStart (M : RunnerModel σ) (T : ℕ) (s : σ) (r : ℕ) : σ :=
  (List.range r).foldl (fun s _ => trialEnd M T s) s

/-- The reward agent `a` receives at timestep `t` of trial `r`. -/
def rewardAt (M : RunnerModel σ) (T : ℕ) (s0 : σ) (r t a : ℕ) : ℚ :=
  agentRew M a (stepsUpTo M (trialStateAt M (runStart M T s0 r) t) a)

/-- Whether agent `a`'s action at timestep `t` of trial `r` was optimal. -/
def optimalAt (M : RunnerModel σ) (T : ℕ) (s0 : σ) (r t a : ℕ) : Bool :=
  agentOptFlag M a (stepsUpTo M (trialStateAt M (runStart M T s0 r) t) a)

theorem stepsUpTo_succ (M : RunnerModel σ) (s : σ) (n : ℕ) :
    stepsUpTo M s (n + 1) = agentNext M n (stepsUpTo M s n) := by
  simp [stepsUpTo, List.range_succ]

theorem tickIter_succ (M : RunnerModel σ) (s : σ) (n : ℕ) :
    tickIter M s (n + 1) = tickS M (tickIter M s n) := by
  simp [tickIter, List.range_succ]

theorem runStart_succ (M : RunnerModel σ) (T : ℕ) (s : σ) (r : ℕ) :
    runStart M T s (r + 1) = trialEnd M T (runStart M T s r) := by
  simp [runStart, List.range_succ]

/-- Effect of the inner agent loop at timestep `t` on the world state
and on each accumulator cell: row `t` gains one reward (resp. one
optimality indicator) per processed agent, evaluated at the world state
that agent saw; every other cell is untouched. -/
theorem inner_loop_spec (M : RunnerModel σ) (t n : ℕ) (sh : σ × Hist) :
    ((List.range n).foldl (fun sh a => agentBody M t a sh) sh).1 =
      stepsUpTo M sh.1 n ∧
    (∀ t2 a2, ((List.range n).foldl (fun sh a => agentBody M t a sh) sh).2.rew t2 a2 =
      if t2 = t ∧ a2 < n then
        sh.2.rew t2 a2 + agentRew M a2 (stepsUpTo M sh.1 a2)
      else sh.2.rew t2 a2) ∧
    (∀ t2 a2, ((List.range n).foldl (fun sh a => agentBody M t a sh) sh).2.opt t2 a2 =
      if t2 = t ∧ a2 < n then
        sh.2.opt t2 a2 +
          (if agentOptFlag M a2 (stepsUpTo M sh.1 a2) then 1 else 0)
      else sh.2.opt t2 a2) := by
  induction n with
  | zero => simp [stepsUpTo]
  | succ m ih =>
      obtain ⟨ih1, ih2, ih3⟩ := ih
      rw [List.range_succ, List.foldl_append, List.foldl_cons, List.foldl_nil]
      refine ⟨?_, ?_, ?_⟩
      · show (agentBody M t m _).1 = _
        rw [agentBody, stepsUpTo_succ, ih1]
      · intro t2 a2
        show bump _ t m _ t2 a2 = _
        rw [bump]
        by_cases h1 : t2 = t ∧ a2 = m
        · obtain ⟨ht, ha⟩ := h1
          subst ht
          subst ha
          rw [if_pos (show t2 = t2 ∧ a2 = a2 from ⟨rfl, rfl⟩), ih2 t2 a2,
            if_neg (show ¬(t2 = t2 ∧ a2 < a2) from fun hcc =>
              absurd hcc.2 (lt_irrefl a2)), ih1,
            if_pos (show t2 = t2 ∧ a2 < a2 + 1 from
              ⟨rfl, Nat.lt_succ_self a2⟩)]
        · rw [if_neg h1, ih2 t2 a2]
          refine if_congr ?_ rfl rfl
          constructor
          · rintro ⟨hx, hy⟩
            exact ⟨hx, Nat.lt_succ_of_lt hy⟩
          · rintro ⟨hx, hy⟩
            refine ⟨hx, ?_⟩
            have hne : a2 ≠ m := fun he => h1 ⟨hx, he⟩
            omega
      · intro t2 a2
        show bump _ t m _ t2 a2 = _
        rw [bump]
        by_cases h1 : t2 = t ∧ a2 = m
        · obtain ⟨ht, ha⟩ := h1
          subst ht
          subst ha
          rw [if_pos (show t2 = t2 ∧ a2 = a2 from ⟨rfl, rfl⟩), ih3 t2 a2,
            if_neg (show ¬(t2 = t2 ∧ a2 < a2) from fun hcc =>
              absurd hcc.2 (lt_irrefl a2)), ih1,
            if_pos (show t2 = t2 ∧ a2 < a2 + 1 from
              ⟨rfl, Nat.lt_succ_self a2⟩)]
        · rw [if_neg h1, ih3 t2 a2]
          refine if_congr ?_ rfl rfl
          constructor
          · rintro ⟨hx, hy⟩
            exact ⟨hx, Nat.lt_succ_of_lt hy⟩
          · rintro ⟨hx, hy⟩
            refine ⟨hx, ?_⟩
            have hne : a2 ≠ m := fun he => h1 ⟨hx, he⟩
            omega

/-- Effect of the timestep loop: after `Tn` timesteps the world has
ticked `Tn` times, and each cell `(t2, a2)` with `t2 < Tn` has gained
exactly one contribution, evaluated at the world state agent `a2` saw in
timestep `t2`. -/
theorem time_loop_spec (M : RunnerModel σ) (Tn : ℕ) (s : σ) (h : Hist) :
    ((List.range Tn).foldl (fun sh t => timeBody M t sh) (s, h)).1 =
      tickIter M s Tn ∧
    (∀ t2 a2,
      ((List.range Tn).foldl (fun sh t => timeBody M t sh) (s, h)).2.rew t2 a2 =
      if t2 < Tn ∧ a2 < M.numAgents then
        h.rew t2 a2 + agentRew M a2 (stepsUpTo M (tickIter M s t2) a2)
      else h.rew t2 a2) ∧
    (∀ t2 a2,
      ((List.range Tn).foldl (fun sh t => timeBody M t sh) (s, h)).2.opt t2 a2 =
      if t2 < Tn ∧ a2 < M.numAgents then
        h.opt t2 a2 +
          (if agentOptFlag M a2 (stepsUpTo M (tickIter M s t2) a2) then 1 else 0)
      else h.opt t2 a2) := by
  induction Tn with
  | zero => simp [tickIter]
  | succ m ih =>
      obtain ⟨ih1, ih2, ih3⟩ := ih
      rw [List.range_succ, List.foldl_append, List.foldl_cons, List.foldl_nil]
      have hin := inner_loop_spec M m M.numAgents
        ((List.range m).foldl (fun sh t => timeBody M t sh) (s, h))
      refine ⟨?_, ?_, ?_⟩
      · rw [timeBody, hin.1, ih1, tickIter_succ]
        rfl
      · intro t2 a2
        rw [timeBody, hin.2.1 t2 a2]
        by_cases h1 : t2 = m ∧ a2 < M.numAgents
        · obtain ⟨ht, hA⟩ := h1
          subst ht
          rw [if_pos (show t2 = t2 ∧ a2 < M.numAgents from ⟨rfl, hA⟩),
            ih2 t2 a2,
            if_neg (show ¬(t2 < t2 ∧ a2 < M.numAgents) from fun hcc =>
              absurd hcc.1 (lt_irrefl t2)), ih1,
            if_pos (show t2 < t2 + 1 ∧ a2 < M.numAgents from
              ⟨Nat.lt_succ_self t2, hA⟩)]
        · rw [if_neg h1, ih2 t2 a2]
          refine if_congr ?_ rfl rfl
          constructor
          · rintro ⟨hx, hy⟩
            exact ⟨Nat.lt_succ_of_lt hx, hy⟩
          · rintro ⟨hx, hy⟩
            have hne : t2 ≠ m := fun he => h1 ⟨he, hy⟩
            exact ⟨by omega, hy⟩
      · intro t2 a2
        rw [timeBody, hin.2.2 t2 a2]
        by_cases h1 : t2 = m ∧ a2 < M.numAgents
        · obtain ⟨ht, hA⟩ := h1
          subst ht
          rw [if_pos (show t2 = t2 ∧ a2 < M.numAgents from ⟨rfl, hA⟩),
            ih3 t2 a2,
            if_neg (show ¬(t2 < t2 ∧ a2 < M.numAgents) from fun hcc =>
              absurd hcc.1 (lt_irrefl t2)), ih1,
            if_pos (show t2 < t2 + 1 ∧ a2 < M.numAgents from
              ⟨Nat.lt_succ_self t2, hA⟩)]
        · rw [if_neg h1, ih3 t2 a2]
          refine if_congr ?_ rfl rfl
          constructor
          · rintro ⟨hx, hy⟩
            exact ⟨Nat.lt_succ_of_lt hx, hy⟩
          · rintro ⟨hx, hy⟩
            have hne : t2 ≠ m := fun he => h1 ⟨he, hy⟩
            exact ⟨by omega, hy⟩

/-- Effect of the run loop: after `Rn` independent trials (each opened
by `full_reset`) every in-range cell holds its start value plus the sum
over trials of that trial's contribution, and the world state is the
`Rn`-fold trial iterate. -/
theorem runs_loop_spec (M : RunnerModel σ) (T Rn : ℕ) (s : σ) (h : Hist) :
    ((List.range Rn).foldl (fun sh _ => runBody M T sh) (s, h)).1 =
      runStart M T s Rn ∧
    (∀ t a,
      ((List.range Rn).foldl (fun sh _ => runBody M T sh) (s, h)).2.rew t a =
      if t < T ∧ a < M.numAgents then
        h.rew t a + ∑ r in Finset.range Rn, rewardAt M T s r t a
      else h.rew t a) ∧
    (∀ t a,
      ((List.range Rn).foldl (fun sh _ => runBody M T sh) (s, h)).2.opt t a =
      if t < T ∧ a < M.numAgents then
        h.opt t a +
          ∑ r in Finset.range Rn, (if optimalAt M T s r t a then (1 : ℚ) else 0)
      else h.opt t a) := by
  induction Rn with
  | zero => simp [runStart]
  | succ m ih =>
      obtain ⟨ih1, ih2, ih3⟩ := ih
      rw [List.range_succ, List.foldl_append, List.foldl_cons, List.foldl_nil]
      set res := (List.range m).foldl (fun sh _ => runBody M T sh) (s, h) with hres
      have htl := time_loop_spec M T (M.full_reset res.1) res.2
      refine ⟨?_, ?_, ?_⟩
      · rw [runBody, htl.1, ih1, runStart_succ]
        rfl
      · intro t a
        rw [runBody, htl.2.1 t a]
        by_cases h1 : t < T ∧ a < M.numAgents
        · rw [if_pos h1, ih2 t a, if_pos h1, ih1]
          have hterm : agentRew M a
              (stepsUpTo M (tickIter M (M.full_reset (runStart M T s m)) t) a) =
              rewardAt M T s m t a := rfl
          rw [hterm, Finset.sum_range_succ, add_assoc, if_pos h1]
        · rw [if_neg h1, ih2 t a, if_neg h1, if_neg h1]
      · intro t a
        rw [runBody, htl.2.2 t a]
        by_cases h1 : t < T ∧ a < M.numAgents
        · rw [if_pos h1, ih3 t a, if_pos h1, ih1]
          have hterm : (if agentOptFlag M a
              (stepsUpTo M (tickIter M (M.full_reset (runStart M T s m)) t) a)
              then (1 : ℚ) else 0) =
              (if optimalAt M T s m t a then (1 : ℚ) else 0) := rfl
          rw [hterm, Finset.sum_range_succ, add_assoc, if_pos h1]
        · rw [if_neg h1, ih3 t a, if_neg h1, if_neg h1]

theorem cell_map_range (T A : ℕ) (f : ℕ → ℕ → Option ℚ) (t a : ℕ)
    (ht : t < T) (ha : a < A) :
    cell ((List.range T).map fun t => (List.range A).map fun a => f t a) t a =
      f t a := by
  have hrow : vget ((List.range T).map fun t =>
      (List.range A).map fun a => f t a) t [] =
      (List.range A).map fun a => f t a := by
    rw [vget, List.getD_eq_getElem _ _ (by simpa using ht),
      List.getElem_map, List.getElem_range]
  rw [cell, hrow, vget, List.getD_eq_getElem _ _ (by simpa using ha),
    List.getElem_map, List.getElem_range]

/-- C1: `perform_runs(T, R)` returns two `[T][numAgents]` matrices; each
trial is opened by `full_reset` (so trial `r + 1` starts from the
previous trial's final world state) and, for `R > 0`, cell `[t][a]` of
the two outputs is the sum over the `R` trials of the reward received
(resp. the 0/1 optimality indicator) by agent `a` at timestep `t` of
that trial — with agents processed in list order within each timestep —
divided by `R`. -/
theorem C1_perform_runs_mean {σ : Type} (M : RunnerModel σ) (T R : ℕ)
    (s0 : σ) (hR : 0 < R) :
    (perform_runs M T R s0).1.length = T ∧
    (perform_runs M T R s0).2.length = T ∧
    (∀ row ∈ (perform_runs M T R s0).1, row.length = M.numAgents) ∧
    (∀ row ∈ (perform_runs M T R s0).2, row.length = M.numAgents) ∧
    (∀ r, runStart M T s0 (r + 1) = trialEnd M T (runStart M T s0 r)) ∧
    (∀ t a, t < T → a < M.numAgents →
      cell (perform_runs M T R s0).1 t a =
        some ((∑ r in Finset.range R, rewardAt M T s0 r t a) / R) ∧
      cell (perform_runs M T R s0).2 t a =
        some ((∑ r in Finset.range R,
          if optimalAt M T s0 r t a then (1 : ℚ) else 0) / R)) := by
  have hrl := runs_loop_spec M T R s0 ⟨fun _ _ => 0, fun _ _ => 0⟩
  refine ⟨by simp [perform_runs], by simp [perform_runs], ?_, ?_, ?_, ?_⟩
  · intro row hrow
    rw [perform_runs] at hrow
    obtain ⟨t, _, rfl⟩ := List.mem_map.mp hrow
    simp
  · intro row hrow
    rw [perform_runs] at hrow
    obtain ⟨t, _, rfl⟩ := List.mem_map.mp hrow
    simp
  · intro r
    exact runStart_succ M T s0 r
  · intro t a ht ha
    constructor
    · have hfst : (perform_runs M T R s0).1 =
          (List.range T).map fun t => (List.range M.numAgents).map fun a =>
            npDiv (((List.range R).foldl (fun sh _ => runBody M T sh)
              (s0, ⟨fun _ _ => 0, fun _ _ => 0⟩)).2.rew t a) R := rfl
      rw [hfst, cell_map_range T M.numAgents _ t a ht ha, hrl.2.1 t a,
        if_pos ⟨ht, ha⟩, npDiv, if_neg (Nat.pos_iff_ne_zero.mp hR), zero_add]
    · have hsnd : (perform_runs M T R s0).2 =
          (List.range T).map fun t => (List.range M.numAgents).map fun a =>
            npDiv (((List.range R).foldl (fun sh _ => runBody M T sh)
              (s0, ⟨fun _ _ => 0, fun _ _ => 0⟩)).2.opt t a) R := rfl
      rw [hsnd, cell_map_range T M.numAgents _ t a ht ha, hrl.2.2 t a,
        if_pos ⟨ht, ha⟩, npDiv, if_neg (Nat.pos_iff_ne_zero.mp hR), zero_add]

/-- C8 amended: `perform_runs` never raises; the outputs always have
shape `[timesteps][numAgents]` (so empty agent lists or zero timesteps
give empty/zero-shaped matrices), but with `runs = 0` every cell of both
matrices is the undefined IEEE value `0/0` (NaN, modelled `none`) — the
in-range cells are defined exactly when `runs > 0`. -/
theorem C8_degenerate_inputs {σ : Type} (M : RunnerModel σ) (T R : ℕ)
    (s0 : σ) :
    (perform_runs M T R s0).1.length = T ∧
    (perform_runs M T R s0).2.length = T ∧
    (∀ row ∈ (perform_runs M T R s0).1, row.length = M.numAgents) ∧
    (∀ row ∈ (perform_runs M T R s0).2, row.length = M.numAgents) ∧
    (∀ t a, t < T → a < M.numAgents →
      (cell (perform_runs M T R s0).1 t a = none ↔ R = 0) ∧
      (cell (perform_runs M T R s0).2 t a = none ↔ R = 0)) := by
  refine ⟨by simp [perform_runs], by simp [perform_runs], ?_, ?_, ?_⟩
  · intro row hrow
    rw [perform_runs] at hrow
    obtain ⟨t, _, rfl⟩ := List.mem_map.mp hrow
    simp
  · intro row hrow
    rw [perform_runs] at hrow
    obtain ⟨t, _, rfl⟩ := List.mem_map.mp hrow
    simp
  · intro t a ht ha
    constructor
    · have hfst : (perform_runs M T R s0).1 =
          (List.range T).map fun t => (List.range M.numAgents).map fun a =>
            npDiv (((List.range R).foldl (fun sh _ => runBody M T sh)
              (s0, ⟨fun _ _ => 0, fun _ _ => 0⟩)).2.rew t a) R := rfl
      rw [hfst, cell_map_range T M.numAgents _ t a ht ha, npDiv]
      split_ifs with h0 <;> simp [h0]
    · have hsnd : (perform_runs M T R s0).2 =
          (List.range T).map fun t => (List.range M.numAgents).map fun a =>
            npDiv (((List.range R).foldl (fun sh _ => runBody M T sh)
              (s0, ⟨fun _ _ => 0, fun _ _ => 0⟩)).2.opt t a) R := rfl
      rw [hsnd, cell_map_range T M.numAgents _ t a ht ha, npDiv]
      split_ifs with h0 <;> simp [h0]

/-- A deterministic one-agent world used to exercise the runner: the
agent always picks action 0, the environment always pays reward 3 and
flags the action optimal, state is a bare counter. -/
def trivModel : RunnerModel ℕ :=
  { numAgents := 1
    full_reset := fun s => s
    choose_action := fun _ s => (s, 0)
    take_action_emit_reward := fun _ s => (s + 1, 3, true)
    update_agent := fun _ _ _ s => s }

/-- C8 fails as stated: `perform_runs(timesteps = 1, runs = 0)` on a
one-agent runner raises nothing and returns a 1×1 matrix whose only
cell is the undefined value NaN (`np.zeros((1,1)) / 0`), not an
empty/zero-shaped output or an explicit error. -/
theorem C8_counterexample :
    cell (perform_runs trivModel 1 0 0).1 0 0 = none ∧
    (perform_runs trivModel 1 0 0).1.length = 1 := ⟨rfl, rfl⟩

theorem C1_witness :
    0 < 2 ∧ (0 : ℕ) < 1 ∧ 0 < trivModel.numAgents ∧
    (cell (perform_runs trivModel 1 2 0).1 0 0 =
      some ((∑ r in Finset.range 2, rewardAt trivModel 1 0 r 0 0) / 2) ∧
    cell (perform_runs trivModel 1 2 0).2 0 0 =
      some ((∑ r in Finset.range 2,
        if optimalAt trivModel 1 0 r 0 0 then (1 : ℚ) else 0) / 2)) := by
  refine ⟨by decide, by decide, by decide, ?_⟩
  exact (C1_perform_runs_mean trivModel 1 2 0 (by decide)).2.2.2.2.2 0 0
    (by decide) (by decide)

theorem C8_witness :
    (0 : ℕ) < 1 ∧ 0 < trivModel.numAgents ∧
    ((cell (perform_runs trivModel 1 0 0).1 0 0 = none ↔ 0 = 0) ∧
     (cell (perform_runs trivModel 1 0 0).2 0 0 = none ↔ 0 = 0)) := by
  refine ⟨by decide, by decide, ?_⟩
  exact (C8_degenerate_inputs trivModel 1 0 0).2.2.2.2 0 0 (by decide) (by decide)

end TestRunner
